import Mathlib

/-!
Verification of the slopboard-vscode-extension core: the session lifecycle
state machine in extension.js and the offline delivery queue spread across
extension.js, storageService.js and apiService.js.

Conventions of the embedding:
* JavaScript Date values are modelled as milliseconds since the epoch
  (an Int).  Date subtraction is Int subtraction.  The local calendar is
  modelled DST-free, so one calendar day is exactly 86400000 ms and
  setHours(0,0,0,0) truncates to the enclosing day boundary.
* Math.floor of a quotient by a positive constant is Int division
  (Lean Int division is Euclidean, which agrees with floor for a
  positive divisor).
* The vscode globalState list of offline sessions is an explicit list;
  Map from apiService.groupSessionsByLanguage is an insertion-ordered
  association list, exactly the observable behaviour of a JS Map.
* Network sends are fallible: each send attempt carries an explicit
  Boolean outcome (true = resolved, false = thrown/rejected).
-/

namespace Slopboard

/-- Milliseconds in one calendar day. -/
def msPerDay : Int := 86400000

/-- JS Date.prototype.getDay in the DST-free local calendar: 0 = Sunday,
1 = Monday, ..., 6 = Saturday.  The epoch day (1970-01-01) was a Thursday,
hence the +4 offset. -/
def jsGetDay (t : Int) : Int := (t / msPerDay + 4) % 7

/-- JS setHours(0,0,0,0): truncate a timestamp to its local day start. -/
def jsDayStart (t : Int) : Int := (t / msPerDay) * msPerDay

/-- Utils.getWeekStart from utils.js: take getDay, shift to the previous
Monday with setDate (diff = -6 when Sunday, else 1 - day), then
setHours(0,0,0,0). -/
def Utils.getWeekStart (t : Int) : Int :=
  let day := jsGetDay t
  let diff := if day = 0 then -6 else 1 - day
  jsDayStart (t + diff * msPerDay)

/-- Utils.getWeekEnd from utils.js: getWeekStart, then setDate(+6) and
setHours(23,59,59,999). -/
def Utils.getWeekEnd (t : Int) : Int :=
  let result := Utils.getWeekStart t
  jsDayStart (result + 6 * msPerDay) + 86399999

/-- ApiService.getWeekStart from apiService.js: the same algorithm as
Utils.getWeekStart, embedded separately from its own source text. -/
def ApiService.getWeekStart (t : Int) : Int :=
  let day := jsGetDay t
  let diff := if day = 0 then -6 else 1 - day
  jsDayStart (t + diff * msPerDay)

/-! ## Offline storage (storageService.js) -/

/-- Shape stored by StorageService.addOfflineSession: id, language,
start/end times (ISO strings in JS, timestamps here) and duration. -/
structure StoredSession where
  sid : Nat
  languageId : Int
  startTime : Int
  endTime : Int
  duration : Int
  deriving DecidableEq

/-- StorageService.maybeTriggerOfflineWarning: the warning fires iff the
new count is exactly one of the thresholds 10, 50, 100, 500. -/
def maybeTriggerOfflineWarning (count : Nat) : Bool :=
  ([10, 50, 100, 500] : List Nat).contains count

/-- StorageService.addOfflineSession: push the stored shape onto the end of
the persisted list, then run the threshold check against the new length.
The Bool records whether the backlog warning fired. -/
def addOfflineSession (q : List StoredSession) (s : StoredSession) :
    List StoredSession × Bool :=
  let q2 := q ++ [s]
  (q2, maybeTriggerOfflineWarning q2.length)

/-- StorageService.getOfflineSessions with a limit: slice(0, limit). -/
def getOfflineSessions (q : List StoredSession) (limit : Nat) :
    List StoredSession :=
  q.take limit

/-- StorageService.removeOfflineSessions: drop count items from the head. -/
def removeOfflineSessions (q : List StoredSession) (count : Nat) :
    List StoredSession :=
  q.drop count

/-! ## Upload retry backoff (extension.js, sendOfflineSessions catch) -/

/-- The catch block of sendOfflineSessions: when uploadRetryCount < 5 it is
first incremented and a retry is scheduled after 1000 * 2 ^ (new count) ms;
otherwise the counter resets to zero and no retry is scheduled (the
periodic upload interval remains the only trigger).  Returns the new
counter and the scheduled delay, if any. -/
def retryAfterFailure (uploadRetryCount : Nat) : Nat × Option Nat :=
  if uploadRetryCount < 5 then
    (uploadRetryCount + 1, some (1000 * 2 ^ (uploadRetryCount + 1)))
  else
    (0, none)

/-- Iterate retryAfterFailure over a run of n consecutive failures,
collecting the scheduled delay of each failure and the final counter. -/
def failureRun : Nat → Nat → List (Option Nat) × Nat
  | 0, c => ([], c)
  | n + 1, c =>
      let p := retryAfterFailure c
      let rest := failureRun n p.1
      (p.2 :: rest.1, rest.2)

/-! ## Drain step (extension.js, sendOfflineSessions) -/

structure DrainConfig where
  apiKeyPresent : Bool
  uploadBatchSize : Nat
  deriving DecidableEq

/-- Batch-size escalation in sendOfflineSessions: start from the configured
uploadBatchSize (default 10), overwrite with 50 when more than 100 sessions
are queued, then with 100 when more than 500 are queued. -/
def effectiveBatchSize (base : Nat) (totalSessions : Nat) : Nat :=
  let b1 := if totalSessions > 100 then 50 else base
  if totalSessions > 500 then 100 else b1

/-- The items one call of sendOfflineSessions takes from the queue head:
getOfflineSessions(batchSize) with the escalated batch size. -/
def attemptedBatch (cfg : DrainConfig) (q : List StoredSession) :
    List StoredSession :=
  getOfflineSessions q (effectiveBatchSize cfg.uploadBatchSize q.length)

/-- The queue effect of one call of sendOfflineSessions, with the outcome
of the single sendBatchSessions attempt passed in as sendOk.  Early
returns: empty queue, missing api key, empty batch.  On success exactly
the sent count is removed from the head; the catch path never touches the
queue. -/
def sendOfflineSessionsStep (cfg : DrainConfig) (q : List StoredSession)
    (sendOk : Bool) : List StoredSession :=
  if q.length = 0 then q
  else if ¬cfg.apiKeyPresent then q
  else
    let sessionsToSend := attemptedBatch cfg q
    if sessionsToSend.length = 0 then q
    else if sendOk then removeOfflineSessions q sessionsToSend.length
    else q

/-! ## Session tracker (extension.js) -/

/-- An activity target: the document handed to the event handlers.
trackable is the result of the external shouldTrackDocument predicate
(untitled/scheme/config/exclusion checks), which the tracker consults but
does not own. -/
structure Target where
  languageId : Int
  projectName : String
  filePath : String
  trackable : Bool
  deriving DecidableEq

/-- The activeSession object built by startSession.  The uuid is modelled
by a fresh counter value. -/
structure OpenSession where
  sid : Nat
  languageId : Int
  projectName : String
  filePath : String
  startTime : Int
  deriving DecidableEq

/-- A session after endSession stamped endTime and duration. -/
structure ClosedSession where
  sid : Nat
  languageId : Int
  projectName : String
  filePath : String
  startTime : Int
  endTime : Int
  duration : Int
  deriving DecidableEq

/-- The duration/endTime stamping done by endSession:
duration = Math.floor((now - startTime) / 1000). -/
def closeSessionAt (s : OpenSession) (now : Int) : ClosedSession :=
  { sid := s.sid
    languageId := s.languageId
    projectName := s.projectName
    filePath := s.filePath
    startTime := s.startTime
    endTime := now
    duration := (now - s.startTime) / 1000 }

/-- endSession: stamp endTime and duration, and emit the closed session to
the save path only when duration >= minSessionDuration.  First component:
the closed session; second: the session handed to saveSession, if any. -/
def endSessionResult (s : OpenSession) (now : Int) (minDuration : Int) :
    ClosedSession × Option ClosedSession :=
  let c := closeSessionAt s now
  (c, if c.duration ≥ minDuration then some c else none)

/-- The stored shape addOfflineSession persists for a closed session. -/
def storedOf (c : ClosedSession) : StoredSession :=
  { sid := c.sid
    languageId := c.languageId
    startTime := c.startTime
    endTime := c.endTime
    duration := c.duration }

/-- saveSession: one immediate sendSession attempt; when it resolves the
session is sent and the queue untouched, when it throws the session is
appended to the offline queue.  First component: list of sessions sent by
the immediate path; second: the queue afterwards. -/
def saveSession (q : List StoredSession) (c : ClosedSession)
    (sendOk : Bool) : List ClosedSession × List StoredSession :=
  if sendOk then ([c], q)
  else ([], (addOfflineSession q (storedOf c)).1)

/-- endSession followed by saveSession on the emitted session (if any):
the full fate of a closing session given the outcome of the single
immediate send attempt. -/
def endSessionSave (s : OpenSession) (now : Int) (minDuration : Int)
    (q : List StoredSession) (sendOk : Bool) :
    List ClosedSession × List StoredSession :=
  match (endSessionResult s now minDuration).2 with
  | none => ([], q)
  | some c => saveSession q c sendOk

/-- The module-level tracker state of extension.js: isTracking,
activeSession, lastActivityTime and the fresh-id counter standing in for
uuid generation. -/
structure TrackerState where
  isTracking : Bool
  activeSession : Option OpenSession
  lastActivityTime : Option Int
  nextId : Nat
  deriving DecidableEq

def initialState : TrackerState :=
  { isTracking := false
    activeSession := none
    lastActivityTime := none
    nextId := 0 }

/-- endSession applied to the tracker state: close the active session if
one exists (activeSession := null), returning the closed sessions. -/
def closeActive (st : TrackerState) (now : Int) :
    TrackerState × List ClosedSession :=
  match st.activeSession with
  | none => (st, [])
  | some s => ({ st with activeSession := none }, [closeSessionAt s now])

/-- startSession: close any prior active session first, then install a new
activeSession for the target with a fresh id and startTime = now. -/
def startSession (st : TrackerState) (tgt : Target) (now : Int) :
    TrackerState × List ClosedSession :=
  let p := closeActive st now
  ({ p.1 with
      activeSession := some
        { sid := p.1.nextId
          languageId := tgt.languageId
          projectName := tgt.projectName
          filePath := tgt.filePath
          startTime := now }
      nextId := p.1.nextId + 1 }, p.2)

/-- The activity events driving the tracker.  Each carries the wall-clock
time at which the handler runs; editor and focus events carry the (possibly
absent) active editor document. -/
inductive Event where
  | docChange (tgt : Target) (now : Int)
  | editorChange (editor : Option Target) (now : Int)
  | focusChange (focused : Bool) (editor : Option Target) (now : Int)
  | startCmd (apiKeyPresent : Bool) (editor : Option Target) (now : Int)
  | stopCmd (now : Int)
  | idleTick (idleThreshold : Int) (now : Int)

/-- One step of the tracker: the event handlers onDocumentChange,
onEditorChange, onWindowStateChange, startTracking, stopTracking and
checkActivity from extension.js.  Returns the new state and the sessions
closed by the event.  The idle comparison (now - last)/1000 > threshold is
stated multiplied out, which is exact. -/
def step (st : TrackerState) : Event → TrackerState × List ClosedSession
  | .docChange tgt now =>
      if st.isTracking then
        let st1 := { st with lastActivityTime := some now }
        match st.activeSession with
        | none => if tgt.trackable then startSession st1 tgt now else (st1, [])
        | some _ => (st1, [])
      else (st, [])
  | .editorChange none _ => (st, [])
  | .editorChange (some tgt) now =>
      if st.isTracking then
        let st1 := { st with lastActivityTime := some now }
        let p := closeActive st1 now
        if tgt.trackable then
          let p2 := startSession p.1 tgt now
          (p2.1, p.2 ++ p2.2)
        else p
      else (st, [])
  | .focusChange focused editor now =>
      if st.isTracking then
        if focused then
          let st1 := { st with lastActivityTime := some now }
          match st.activeSession, editor with
          | none, some tgt =>
              if tgt.trackable then startSession st1 tgt now else (st1, [])
          | _, _ => (st1, [])
        else closeActive st now
      else (st, [])
  | .startCmd apiKeyPresent editor now =>
      if st.isTracking then (st, [])
      else if ¬apiKeyPresent then (st, [])
      else
        let st1 := { st with isTracking := true, lastActivityTime := some now }
        match editor with
        | some tgt =>
            if tgt.trackable then startSession st1 tgt now else (st1, [])
        | none => (st1, [])
  | .stopCmd now =>
      if st.isTracking then closeActive { st with isTracking := false } now
      else (st, [])
  | .idleTick idleThreshold now =>
      match st.activeSession, st.lastActivityTime with
      | some _, some last =>
          if now - last > idleThreshold * 1000 then closeActive st now
          else (st, [])
      | _, _ => (st, [])

/-- Run the tracker over a list of events, concatenating the closed
sessions in the order they were closed. -/
def run (st : TrackerState) : List Event → TrackerState × List ClosedSession
  | [] => (st, [])
  | e :: es =>
      let p := step st e
      let r := run p.1 es
      (r.1, p.2 ++ r.2)

/-- The ids of the currently open sessions: none or exactly one. -/
def activeIds (st : TrackerState) : List Nat :=
  match st.activeSession with
  | none => []
  | some s => [s.sid]

/-! ## Batch grouping (apiService.js, groupSessionsByLanguage) -/

/-- The SessionData wire shape sent to the batch endpoint.  start_time and
end_time are ISO strings in JS, timestamps here; project_name and
file_path are optional. -/
structure SessionData where
  language_id : Int
  start_time : Int
  end_time : Int
  duration : Int
  project_name : Option String
  file_path : Option String
  deriving DecidableEq

/-- One consolidated group record produced by groupSessionsByLanguage. -/
structure GroupRec where
  language_id : Int
  start_time : Int
  end_time : Int
  duration : Int
  project_name : String
  file_path : String
  deriving DecidableEq

/-- The Map key of groupSessionsByLanguage:
language_id together with the week start of start_time. -/
def sessionKey (s : SessionData) : Int × Int :=
  (s.language_id, ApiService.getWeekStart s.start_time)

/-- The fresh Map entry created for an unseen key: duration starts at 0,
end_time at the session's own end_time, project_name and file_path from
this (first) session with defaults "Unknown" and "". -/
def newGroup (s : SessionData) : GroupRec :=
  { language_id := s.language_id
    start_time := ApiService.getWeekStart s.start_time
    end_time := s.end_time
    duration := 0
    project_name := s.project_name.getD "Unknown"
    file_path := s.file_path.getD "" }

/-- The per-session update applied to the group record of the session's
key: duration accumulates, end_time is replaced only when the session's
end_time is strictly later. -/
def updateGroup (g : GroupRec) (s : SessionData) : GroupRec :=
  { g with
      duration := g.duration + s.duration
      end_time := if g.end_time < s.end_time then s.end_time else g.end_time }

/-- The JS Map as an insertion-ordered association list: setting an
existing key updates the entry in place, a new key is appended at the end.
Each loop iteration of groupSessionsByLanguage ensures an entry exists and
then applies updateGroup to it. -/
def insertSession : List ((Int × Int) × GroupRec) → SessionData →
    List ((Int × Int) × GroupRec)
  | [], s => [(sessionKey s, updateGroup (newGroup s) s)]
  | (k, g) :: rest, s =>
      if k = sessionKey s then (k, updateGroup g s) :: rest
      else (k, g) :: insertSession rest s

/-- The fold over all sessions building the Map. -/
def groupFold (ss : List SessionData) : List ((Int × Int) × GroupRec) :=
  ss.foldl insertSession []

/-- ApiService.groupSessionsByLanguage: fold the sessions through the Map
and return Array.from(sessionMap.values()).  The empty-input early return
coincides with the fold on the empty list. -/
def groupSessionsByLanguage (ss : List SessionData) : List GroupRec :=
  (groupFold ss).map (·.2)

/-- First-occurrence lookup in the association list, as Map.get. -/
def lookupKey : List ((Int × Int) × GroupRec) → (Int × Int) →
    Option GroupRec
  | [], _ => none
  | (k, g) :: rest, k' => if k = k' then some g else lookupKey rest k'

/-- The members of the input list falling in a given partition key. -/
def membersOf (ss : List SessionData) (k : Int × Int) : List SessionData :=
  ss.filter (fun s => sessionKey s = k)

/-- The group record a partition should collapse to, computed from scratch
over the member list: duration is the sum of member durations, end_time
the running maximum of member end_times seeded by the first member,
project_name and file_path from the first member with defaults. -/
def groupOfMembers (k : Int × Int) : List SessionData → Option GroupRec
  | [] => none
  | h :: t =>
      some
        { language_id := k.1
          start_time := k.2
          end_time :=
            t.foldl (fun a s => if a < s.end_time then s.end_time else a)
              h.end_time
          duration := ((h :: t).map (·.duration)).sum
          project_name := h.project_name.getD "Unknown"
          file_path := h.file_path.getD "" }

/-! ## Theorems -/

/-- C1: a drain attempt whose batch send throws leaves the offline queue
completely unchanged, so the next drain attempts exactly the same items in
the same order from the head. -/
theorem failed_drain_preserves_queue (cfg : DrainConfig)
    (q : List StoredSession) :
    sendOfflineSessionsStep cfg q false = q ∧
    attemptedBatch cfg (sendOfflineSessionsStep cfg q false) =
      attemptedBatch cfg q := by
  have h : sendOfflineSessionsStep cfg q false = q := by
    simp [sendOfflineSessionsStep]
  exact ⟨h, by rw [h]⟩

/-- C2: endSession stamps duration = floor((endTime - startTime)/1000),
which is nonnegative whenever the end is not before the start, and a
session whose duration is strictly below minSessionDuration is emitted to
neither the immediate send nor the offline queue. -/
theorem endSession_duration_and_min_filter (s : OpenSession)
    (now minDuration : Int) (q : List StoredSession) (sendOk : Bool)
    (h : s.startTime ≤ now) :
    (endSessionResult s now minDuration).1.duration =
      ((endSessionResult s now minDuration).1.endTime - s.startTime) / 1000 ∧
    0 ≤ (endSessionResult s now minDuration).1.duration ∧
    ((endSessionResult s now minDuration).1.duration < minDuration →
      (endSessionResult s now minDuration).2 = none ∧
      endSessionSave s now minDuration q sendOk = ([], q)) := by
  refine ⟨rfl, ?_, fun hlt => ?_⟩
  · simp only [endSessionResult, closeSessionAt]
    omega
  · have h2 : (endSessionResult s now minDuration).2 = none := by
      simp only [endSessionResult, closeSessionAt] at hlt ⊢
      rw [if_neg]
      omega
    refine ⟨h2, ?_⟩
    unfold endSessionSave
    rw [h2]

/-- C2 witness: a 3-second session with a 5-second minimum is dropped. -/
theorem endSession_duration_and_min_filter_witness :
    let s : OpenSession :=
      { sid := 0, languageId := 1, projectName := "p", filePath := "f",
        startTime := 0 }
    s.startTime ≤ 3000 ∧
    ((endSessionResult s 3000 5).1.duration =
      ((endSessionResult s 3000 5).1.endTime - s.startTime) / 1000 ∧
    0 ≤ (endSessionResult s 3000 5).1.duration ∧
    ((endSessionResult s 3000 5).1.duration < 5 →
      (endSessionResult s 3000 5).2 = none ∧
      endSessionSave s 3000 5 [] true = ([], []))) :=
  ⟨by decide,
   endSession_duration_and_min_filter _ 3000 5 [] true (by decide)⟩

/-- C3 counterexample: starting from a zero retry counter, the delays
scheduled for the first five consecutive failures are not
1000, 2000, 4000, 8000, 16000 ms (the counter is incremented before the
delay is computed, so the first delay is already 2000 ms). -/
theorem backoff_delays_not_as_claimed :
    ¬((failureRun 5 0).1 =
      [some 1000, some 2000, some 4000, some 8000, some 16000]) := by
  decide

/-- C3 amended: from a zero retry counter, failures 1 through 5 schedule
retries after 2000, 4000, 8000, 16000 and 32000 ms; the sixth consecutive
failure schedules no retry and resets the counter to zero. -/
theorem backoff_delays_doubling_from_2000 :
    failureRun 6 0 =
      ([some 2000, some 4000, some 8000, some 16000, some 32000, none],
       0) := by
  decide

/-- Truncating an exact multiple of a day to its day start is the
identity. -/
theorem jsDayStart_of_mul (a : Int) :
    jsDayStart (a * 86400000) = a * 86400000 := by
  simp only [jsDayStart, msPerDay]
  rw [Int.mul_ediv_cancel _ (by norm_num : (86400000 : Int) ≠ 0)]

/-- Closed form of the week-start computation: the day quotient shifted by
the Monday offset, rescaled to milliseconds. -/
theorem getWeekStart_closed_form (t : Int) :
    ApiService.getWeekStart t =
      (t / 86400000 +
        (if (t / 86400000 + 4) % 7 = 0 then -6
         else 1 - (t / 86400000 + 4) % 7)) * 86400000 := by
  simp only [ApiService.getWeekStart, jsGetDay, jsDayStart, msPerDay]
  split <;> rw [Int.add_mul_ediv_right _ _ (by norm_num : (86400000 : Int) ≠ 0)]

/-- C5: the week-start function used by the queue grouping
(ApiService.getWeekStart) and the display-side Utils.getWeekStart agree on
every date, and both return the Monday of the date's week truncated to
00:00:00.000; Utils.getWeekEnd is that Monday plus 6 days at
23:59:59.999. -/
theorem weekStart_functions_agree_and_are_monday (t : Int) :
    Utils.getWeekStart t = ApiService.getWeekStart t ∧
    ApiService.getWeekStart t % msPerDay = 0 ∧
    jsGetDay (ApiService.getWeekStart t) = 1 ∧
    0 ≤ t - ApiService.getWeekStart t ∧
    t - ApiService.getWeekStart t < 7 * msPerDay ∧
    Utils.getWeekEnd t =
      ApiService.getWeekStart t + 6 * msPerDay + 86399999 := by
  have h1 : Utils.getWeekStart t = ApiService.getWeekStart t := rfl
  have hkey := getWeekStart_closed_form t
  refine ⟨h1, ?_, ?_, ?_, ?_, ?_⟩
  · simp only [msPerDay]
    rw [hkey]
    exact Int.mul_emod_left _ _
  · simp only [jsGetDay, msPerDay]
    rw [hkey, Int.mul_ediv_cancel _ (by norm_num : (86400000 : Int) ≠ 0)]
    split <;> omega
  · rw [hkey]
    split <;> omega
  · simp only [msPerDay]
    rw [hkey]
    split <;> omega
  · simp only [Utils.getWeekEnd, msPerDay]
    rw [h1, hkey]
    have harg :
        (t / 86400000 +
          (if (t / 86400000 + 4) % 7 = 0 then -6
           else 1 - (t / 86400000 + 4) % 7)) * 86400000 + 6 * 86400000 =
        (t / 86400000 +
          (if (t / 86400000 + 4) % 7 = 0 then -6
           else 1 - (t / 86400000 + 4) % 7) + 6) * 86400000 := by ring
    rw [harg, jsDayStart_of_mul]

/-- C7: a closed session meeting the minimum duration is either sent once
by the immediate path with the queue untouched (send resolved), or
appended once to the offline queue tail and not sent (send threw) — the
two outcomes are mutually exclusive and exhaustive over the outcome of
the single send attempt. -/
theorem immediate_send_or_queue_exactly_once (s : OpenSession)
    (now minDuration : Int) (q : List StoredSession) (sendOk : Bool)
    (h : minDuration ≤ (now - s.startTime) / 1000) :
    (sendOk = true ∧
      endSessionSave s now minDuration q sendOk =
        ([closeSessionAt s now], q)) ∨
    (sendOk = false ∧
      endSessionSave s now minDuration q sendOk =
        ([], q ++ [storedOf (closeSessionAt s now)])) := by
  have h2 : (endSessionResult s now minDuration).2 =
      some (closeSessionAt s now) := by
    simp only [endSessionResult, closeSessionAt]
    rw [if_pos]
    omega
  unfold endSessionSave
  rw [h2]
  cases sendOk with
  | true => exact Or.inl ⟨rfl, rfl⟩
  | false =>
      refine Or.inr ⟨rfl, ?_⟩
      simp [saveSession, addOfflineSession]

/-- C7 witness: a 10-second session, minimum 5 seconds, failing send ends
up appended to the queue exactly once. -/
theorem immediate_send_or_queue_exactly_once_witness :
    let s : OpenSession :=
      { sid := 7, languageId := 2, projectName := "w", filePath := "g",
        startTime := 0 }
    (5 : Int) ≤ (10000 - s.startTime) / 1000 ∧
    ((false = true ∧
      endSessionSave s 10000 5 [] false = ([closeSessionAt s 10000], [])) ∨
     (false = false ∧
      endSessionSave s 10000 5 [] false =
        ([], [] ++ [storedOf (closeSessionAt s 10000)]))) :=
  ⟨by decide, immediate_send_or_queue_exactly_once _ 10000 5 [] false
    (by decide)⟩

/-- C8: after an enqueue, the offline-backlog warning fires iff the new
queue count is exactly 10, 50, 100 or 500; in particular an enqueue from
9 to 10 fires it and one from 10 to 11 does not. -/
theorem offline_warning_exact_match (q : List StoredSession)
    (s : StoredSession) :
    ((addOfflineSession q s).2 = true ↔
      (q.length + 1 = 10 ∨ q.length + 1 = 50 ∨ q.length + 1 = 100 ∨
        q.length + 1 = 500)) ∧
    (addOfflineSession (List.replicate 9 s) s).2 = true ∧
    (addOfflineSession (List.replicate 10 s) s).2 = false := by
  refine ⟨?_, ?_, ?_⟩ <;>
    simp [addOfflineSession, maybeTriggerOfflineWarning, List.contains]

/-- C9: a session closed by the idle check gets its duration from the tick
time itself: the checkActivity branch that fires when
now - lastActivityTime exceeds the idle threshold closes the session with
duration = floor((tickTime - startTime)/1000), not from the last activity
time. -/
theorem idle_close_uses_tick_time (st : TrackerState)
    (idleThreshold now last : Int) (s : OpenSession)
    (ha : st.activeSession = some s)
    (hl : st.lastActivityTime = some last)
    (hidle : now - last > idleThreshold * 1000) :
    (step st (.idleTick idleThreshold now)).2 = [closeSessionAt s now] ∧
    (closeSessionAt s now).duration = (now - s.startTime) / 1000 := by
  refine ⟨?_, rfl⟩
  simp [step, ha, hl, hidle, closeActive]

/-- C9 witness: idle threshold 120 s, last activity at t = 0, tick at
t = 130 s closes the session with duration 130, counted to the tick. -/
theorem idle_close_uses_tick_time_witness :
    let s : OpenSession :=
      { sid := 3, languageId := 1, projectName := "p", filePath := "f",
        startTime := 0 }
    let st : TrackerState :=
      { isTracking := true, activeSession := some s,
        lastActivityTime := some 0, nextId := 4 }
    st.activeSession = some s ∧ st.lastActivityTime = some 0 ∧
    (130000 - 0 : Int) > 120 * 1000 ∧
    ((step st (.idleTick 120 130000)).2 = [closeSessionAt s 130000] ∧
      (closeSessionAt s 130000).duration = (130000 - s.startTime) / 1000) :=
  ⟨rfl, rfl, by decide,
    idle_close_uses_tick_time _ 120 130000 0 _ rfl rfl (by decide)⟩

/-! ### C6: session accounting across the tracker run -/

/-- The accounting invariant: the ids of the sessions closed so far,
followed by the id of the currently open session (if any), are exactly the
ids handed out so far, each exactly once, in order. -/
def SessionAccount (st : TrackerState) (ids : List Nat) : Prop :=
  ids ++ activeIds st = List.range st.nextId

theorem activeIds_length (st : TrackerState) : (activeIds st).length ≤ 1 := by
  unfold activeIds
  cases st.activeSession <;> simp

theorem closeSessionAt_sid (s : OpenSession) (now : Int) :
    (closeSessionAt s now).sid = s.sid := rfl

theorem closeActive_account {st : TrackerState} {ids : List Nat} (now : Int)
    (h : SessionAccount st ids) :
    SessionAccount (closeActive st now).1
      (ids ++ ((closeActive st now).2.map (·.sid))) := by
  unfold SessionAccount closeActive activeIds at *
  cases hs : st.activeSession with
  | none => simpa [hs] using h
  | some s => simpa [hs, closeSessionAt_sid] using h

theorem closeActive_fst_active (st : TrackerState) (now : Int) :
    (closeActive st now).1.activeSession = none := by
  unfold closeActive
  cases hs : st.activeSession with
  | none => simpa using hs
  | some s => rfl

theorem startSession_account {st : TrackerState} {ids : List Nat}
    (tgt : Target) (now : Int) (h : SessionAccount st ids) :
    SessionAccount (startSession st tgt now).1
      (ids ++ ((startSession st tgt now).2.map (·.sid))) := by
  have h1 := closeActive_account now h
  unfold SessionAccount at h1 ⊢
  unfold startSession
  simp only [activeIds] at h1 ⊢
  rw [closeActive_fst_active] at h1
  simp only [List.append_nil] at h1
  simp [List.range_succ, h1]

/-- SessionAccount ignores isTracking and lastActivityTime, so those
fields may be updated freely. -/
theorem account_of_fields {st st' : TrackerState} {ids : List Nat}
    (ha : st'.activeSession = st.activeSession)
    (hn : st'.nextId = st.nextId)
    (h : SessionAccount st ids) : SessionAccount st' ids := by
  unfold SessionAccount activeIds at *
  rw [ha, hn]
  exact h

/-- A no-op step: the closed list is empty and only bookkeeping fields
changed. -/
theorem account_pair_nil {st st' : TrackerState} {ids : List Nat}
    (ha : st'.activeSession = st.activeSession)
    (hn : st'.nextId = st.nextId)
    (h : SessionAccount st ids) :
    SessionAccount st' (ids ++ (([] : List ClosedSession).map (·.sid))) := by
  simpa using account_of_fields ha hn h

theorem step_account {st : TrackerState} {ids : List Nat} (e : Event)
    (h : SessionAccount st ids) :
    SessionAccount (step st e).1 (ids ++ ((step st e).2.map (·.sid))) := by
  cases e with
  | docChange tgt now =>
      simp only [step]
      split
      · split
        · split
          · exact startSession_account tgt now (account_of_fields rfl rfl h)
          · exact account_pair_nil rfl rfl h
        · exact account_pair_nil rfl rfl h
      · exact account_pair_nil rfl rfl h
  | editorChange editor now =>
      cases editor with
      | none => exact account_pair_nil rfl rfl h
      | some tgt =>
          simp only [step]
          split
          · split
            · simp only [List.map_append, ← List.append_assoc]
              exact startSession_account tgt now
                (closeActive_account now (account_of_fields rfl rfl h))
            · exact closeActive_account now (account_of_fields rfl rfl h)
          · exact account_pair_nil rfl rfl h
  | focusChange focused editor now =>
      simp only [step]
      split
      · split
        · split
          · split
            · exact startSession_account _ now (account_of_fields rfl rfl h)
            · exact account_pair_nil rfl rfl h
          · exact account_pair_nil rfl rfl h
        · exact closeActive_account now h
      · exact account_pair_nil rfl rfl h
  | startCmd apiKeyPresent editor now =>
      simp only [step]
      split
      · exact account_pair_nil rfl rfl h
      · split
        · exact account_pair_nil rfl rfl h
        · split
          · split
            · exact startSession_account _ now (account_of_fields rfl rfl h)
            · exact account_pair_nil rfl rfl h
          · exact account_pair_nil rfl rfl h
  | stopCmd now =>
      simp only [step]
      split
      · exact closeActive_account now (account_of_fields rfl rfl h)
      · exact account_pair_nil rfl rfl h
  | idleTick idleThreshold now =>
      simp only [step]
      split
      · split
        · exact closeActive_account now h
        · exact account_pair_nil rfl rfl h
      · exact account_pair_nil rfl rfl h

theorem run_account {st : TrackerState} {ids : List Nat}
    (es : List Event) (h : SessionAccount st ids) :
    SessionAccount (run st es).1 (ids ++ ((run st es).2.map (·.sid))) := by
  induction es generalizing st ids with
  | nil => simpa [run] using h
  | cons e es ih =>
      simp only [run, List.map_append, ← List.append_assoc]
      exact ih (step_account e h)

/-- C6: over any sequence of activity events from the initial state, at
most one session is open at any instant, and no opened session is ever
leaked: the ids of the closed sessions in closing order, followed by the
currently open one (if any), are exactly all ids ever handed out.  Since
the events are arbitrary, this covers every instant of every run as the
final instant of some prefix. -/
theorem at_most_one_open_session_no_leak (es : List Event) :
    ((run initialState es).2.map (·.sid)) ++
        activeIds (run initialState es).1 =
      List.range (run initialState es).1.nextId ∧
    (activeIds (run initialState es).1).length ≤ 1 := by
  refine ⟨?_, activeIds_length _⟩
  have h0 : SessionAccount initialState [] := by
    unfold SessionAccount initialState activeIds
    simp
  simpa [SessionAccount] using run_account es h0

/-! ### C4 and C10: correctness of the Map fold in groupSessionsByLanguage -/

def keysOf (m : List ((Int × Int) × GroupRec)) : List (Int × Int) :=
  m.map (·.1)

theorem lookupKey_insertSession_self (m : List ((Int × Int) × GroupRec))
    (s : SessionData) :
    lookupKey (insertSession m s) (sessionKey s) =
      some (match lookupKey m (sessionKey s) with
            | none => updateGroup (newGroup s) s
            | some g => updateGroup g s) := by
  induction m with
  | nil => simp [insertSession, lookupKey]
  | cons hd tl ih =>
      obtain ⟨k, g⟩ := hd
      by_cases hk : k = sessionKey s
      · subst hk
        simp [insertSession, lookupKey]
      · simp [insertSession, hk, lookupKey, ih]

theorem lookupKey_insertSession_other (m : List ((Int × Int) × GroupRec))
    (s : SessionData) (k' : Int × Int) (h : k' ≠ sessionKey s) :
    lookupKey (insertSession m s) k' = lookupKey m k' := by
  induction m with
  | nil => simp [insertSession, lookupKey, Ne.symm h]
  | cons hd tl ih =>
      obtain ⟨k, g⟩ := hd
      by_cases hk : k = sessionKey s
      · subst hk
        simp [insertSession, lookupKey, Ne.symm h]
      · simp [insertSession, hk, lookupKey, ih]

theorem mem_keysOf_insertSession (m : List ((Int × Int) × GroupRec))
    (s : SessionData) (k' : Int × Int) :
    k' ∈ keysOf (insertSession m s) ↔
      k' ∈ keysOf m ∨ k' = sessionKey s := by
  induction m with
  | nil => simp [insertSession, keysOf]
  | cons hd tl ih =>
      obtain ⟨k, g⟩ := hd
      by_cases hk : k = sessionKey s
      · subst hk
        simp [insertSession, keysOf]
        tauto
      · simp [insertSession, hk, keysOf] at ih ⊢
        tauto

theorem nodup_keysOf_insertSession {m : List ((Int × Int) × GroupRec)}
    (s : SessionData) (h : (keysOf m).Nodup) :
    (keysOf (insertSession m s)).Nodup := by
  induction m with
  | nil => simp [insertSession, keysOf]
  | cons hd tl ih =>
      obtain ⟨k, g⟩ := hd
      simp only [keysOf, List.map_cons, List.nodup_cons] at h
      by_cases hk : k = sessionKey s
      · subst hk
        simpa [insertSession, keysOf] using h
      · simp only [insertSession]
        rw [if_neg hk]
        simp only [keysOf, List.map_cons, List.nodup_cons]
        refine ⟨fun hmem => ?_, ih h.2⟩
        rcases (mem_keysOf_insertSession tl s k).mp
            (by simpa [keysOf] using hmem) with hin | heq
        · exact h.1 (by simpa [keysOf] using hin)
        · exact hk heq

theorem nodup_keysOf_foldl (ss : List SessionData) :
    ∀ m : List ((Int × Int) × GroupRec), (keysOf m).Nodup →
      (keysOf (ss.foldl insertSession m)).Nodup := by
  induction ss with
  | nil => intro m h; simpa using h
  | cons s ss ih =>
      intro m h
      exact ih _ (nodup_keysOf_insertSession s h)

theorem nodup_keysOf_groupFold (ss : List SessionData) :
    (keysOf (groupFold ss)).Nodup :=
  nodup_keysOf_foldl ss [] (by simp [keysOf])

theorem lookupKey_of_mem {m : List ((Int × Int) × GroupRec)}
    {k : Int × Int} {g : GroupRec} (hnd : (keysOf m).Nodup)
    (hm : (k, g) ∈ m) : lookupKey m k = some g := by
  induction m with
  | nil => cases hm
  | cons hd tl ih =>
      obtain ⟨k0, g0⟩ := hd
      simp only [keysOf, List.map_cons, List.nodup_cons] at hnd
      rcases List.mem_cons.mp hm with heq | htl
      · injection heq with h1 h2
        subst h1
        subst h2
        simp [lookupKey]
      · have hne : k0 ≠ k := by
          intro hc
          subst hc
          exact hnd.1 (List.mem_map.mpr ⟨(k0, g), htl, rfl⟩)
        simp [lookupKey, hne, ih hnd.2 htl]

theorem membersOf_append_self (processed : List SessionData)
    (s : SessionData) :
    membersOf (processed ++ [s]) (sessionKey s) =
      membersOf processed (sessionKey s) ++ [s] := by
  simp [membersOf, List.filter_append]

theorem membersOf_append_other (processed : List SessionData)
    (s : SessionData) (k : Int × Int) (h : k ≠ sessionKey s) :
    membersOf (processed ++ [s]) k = membersOf processed k := by
  simp [membersOf, List.filter_append, Ne.symm h]

theorem groupOfMembers_append (k : Int × Int) (l : List SessionData)
    (s : SessionData) (hk : sessionKey s = k) :
    groupOfMembers k (l ++ [s]) =
      some (match groupOfMembers k l with
            | none => updateGroup (newGroup s) s
            | some g => updateGroup g s) := by
  subst hk
  cases l with
  | nil =>
      simp [groupOfMembers, updateGroup, newGroup, sessionKey]
  | cons x xs =>
      simp [groupOfMembers, updateGroup, List.foldl_append,
        List.sum_append]
      ring

/-- The fold invariant: looking any key up in the accumulated Map gives
exactly the reference group of the sessions processed so far under that
key. -/
def GroupInv (processed : List SessionData)
    (m : List ((Int × Int) × GroupRec)) : Prop :=
  ∀ k, lookupKey m k = groupOfMembers k (membersOf processed k)

theorem groupInv_insertSession {processed : List SessionData}
    {m : List ((Int × Int) × GroupRec)} (h : GroupInv processed m)
    (s : SessionData) : GroupInv (processed ++ [s]) (insertSession m s) := by
  intro k
  by_cases hk : k = sessionKey s
  · subst hk
    rw [lookupKey_insertSession_self, membersOf_append_self,
      groupOfMembers_append _ _ _ rfl, ← h]
  · rw [lookupKey_insertSession_other _ _ _ hk,
      membersOf_append_other _ _ _ hk]
    exact h k

theorem groupInv_foldl (ss : List SessionData) :
    ∀ (processed : List SessionData) (m : List ((Int × Int) × GroupRec)),
      GroupInv processed m →
      GroupInv (processed ++ ss) (ss.foldl insertSession m) := by
  induction ss with
  | nil => intro processed m h; simpa using h
  | cons s ss ih =>
      intro processed m h
      have h2 := ih (processed ++ [s]) (insertSession m s)
        (groupInv_insertSession h s)
      simpa [List.append_assoc] using h2

theorem groupFold_lookup (ss : List SessionData) (k : Int × Int) :
    lookupKey (groupFold ss) k = groupOfMembers k (membersOf ss k) := by
  have h0 : GroupInv [] [] := by
    intro k
    simp [lookupKey, membersOf, groupOfMembers]
  simpa using groupInv_foldl ss [] [] h0 k

theorem mem_groupFold_spec {ss : List SessionData} {k : Int × Int}
    {g : GroupRec} (h : (k, g) ∈ groupFold ss) :
    groupOfMembers k (membersOf ss k) = some g := by
  rw [← groupFold_lookup]
  exact lookupKey_of_mem (nodup_keysOf_groupFold ss) h

theorem mem_of_lookupKey {m : List ((Int × Int) × GroupRec)}
    {k : Int × Int} {g : GroupRec} (h : lookupKey m k = some g) :
    (k, g) ∈ m := by
  induction m with
  | nil => simp [lookupKey] at h
  | cons hd tl ih =>
      obtain ⟨k0, g0⟩ := hd
      by_cases hk : k0 = k
      · subst hk
        simp [lookupKey] at h
        subst h
        exact List.mem_cons_self _ _
      · simp only [lookupKey, if_neg hk] at h
        exact List.mem_cons_of_mem _ (ih h)

/-- Bounds of the running end-time maximum used by the grouping loop. -/
theorem foldl_end_bounds (t : List SessionData) (a : Int) :
    a ≤ t.foldl (fun b s => if b < s.end_time then s.end_time else b) a ∧
    (∀ s ∈ t,
      s.end_time ≤
        t.foldl (fun b s => if b < s.end_time then s.end_time else b) a) ∧
    (t.foldl (fun b s => if b < s.end_time then s.end_time else b) a = a ∨
      ∃ s ∈ t,
        t.foldl (fun b s => if b < s.end_time then s.end_time else b) a =
          s.end_time) := by
  induction t generalizing a with
  | nil => simp
  | cons x xs ih =>
      obtain ⟨ih1, ih2, ih3⟩ := ih (if a < x.end_time then x.end_time else a)
      simp only [List.foldl_cons]
      refine ⟨le_trans (by split <;> omega) ih1, ?_, ?_⟩
      · intro s hs
        rcases List.mem_cons.mp hs with rfl | hmem
        · exact le_trans (by split <;> omega) ih1
        · exact ih2 s hmem
      · rcases ih3 with h3 | ⟨s, hs, h3⟩
        · by_cases hax : a < x.end_time
          · right
            exact ⟨x, List.mem_cons_self x xs, by rw [h3, if_pos hax]⟩
          · left
            rw [h3, if_neg hax]
        · right
          exact ⟨s, List.mem_cons_of_mem x hs, h3⟩

/-- C4: every record produced by groupSessionsByLanguage describes one
partition of the input by (language id, week start of start_time): its
duration is the sum of the member durations, its end_time is the largest
member end_time, and its start_time is the shared week start of all
members. -/
theorem grouping_partitions_sums_durations_max_end (ss : List SessionData)
    (g : GroupRec) (hg : g ∈ groupSessionsByLanguage ss) :
    membersOf ss (g.language_id, g.start_time) ≠ [] ∧
    g.duration =
      ((membersOf ss (g.language_id, g.start_time)).map (·.duration)).sum ∧
    (∀ s ∈ membersOf ss (g.language_id, g.start_time),
      s.end_time ≤ g.end_time) ∧
    (∃ s ∈ membersOf ss (g.language_id, g.start_time),
      g.end_time = s.end_time) ∧
    (∀ s ∈ membersOf ss (g.language_id, g.start_time),
      s.language_id = g.language_id ∧
        ApiService.getWeekStart s.start_time = g.start_time) ∧
    (∀ s ∈ ss, ∃ g' ∈ groupSessionsByLanguage ss,
      g'.language_id = s.language_id ∧
        g'.start_time = ApiService.getWeekStart s.start_time) := by
  have hcover : ∀ s ∈ ss, ∃ g' ∈ groupSessionsByLanguage ss,
      g'.language_id = s.language_id ∧
        g'.start_time = ApiService.getWeekStart s.start_time := by
    intro s hsin
    have hsm : s ∈ membersOf ss (sessionKey s) := by
      simp [membersOf, List.mem_filter, hsin]
    cases hm2 : membersOf ss (sessionKey s) with
    | nil => rw [hm2] at hsm; cases hsm
    | cons y ys =>
        have hlk := groupFold_lookup ss (sessionKey s)
        rw [hm2] at hlk
        simp only [groupOfMembers] at hlk
        exact ⟨_, List.mem_map.mpr ⟨_, mem_of_lookupKey hlk, rfl⟩, rfl, rfl⟩
  obtain ⟨p, hp, hpe⟩ := List.mem_map.mp hg
  obtain ⟨k, g'⟩ := p
  simp only at hpe
  subst hpe
  have hspec := mem_groupFold_spec hp
  cases hm : membersOf ss k with
  | nil =>
      rw [hm] at hspec
      exact absurd hspec (by simp [groupOfMembers])
  | cons x xs =>
      rw [hm] at hspec
      simp only [groupOfMembers, Option.some.injEq] at hspec
      have hlang : g'.language_id = k.1 := by rw [← hspec]
      have hstart : g'.start_time = k.2 := by rw [← hspec]
      have hdur : g'.duration = (((x :: xs)).map (·.duration)).sum := by
        rw [← hspec]
      have hend : g'.end_time =
          xs.foldl (fun b s => if b < s.end_time then s.end_time else b)
            x.end_time := by
        rw [← hspec]
      have hkk : (g'.language_id, g'.start_time) = k := by
        rw [hlang, hstart]
      rw [hkk, hm]
      obtain ⟨hb1, hb2, hb3⟩ := foldl_end_bounds xs x.end_time
      refine ⟨by simp, hdur, ?_, ?_, ?_, hcover⟩
      · intro s hs
        rcases List.mem_cons.mp hs with rfl | hmem
        · rw [hend]; exact hb1
        · rw [hend]; exact hb2 s hmem
      · rcases hb3 with h3 | ⟨s, hs, h3⟩
        · exact ⟨x, List.mem_cons_self x xs, by rw [hend, h3]⟩
        · exact ⟨s, List.mem_cons_of_mem x hs, by rw [hend, h3]⟩
      · intro s hs
        have hs' : s ∈ membersOf ss k := by rw [hm]; exact hs
        have hsk : sessionKey s = k := by
          have h2 := (List.mem_filter.mp hs').2
          simpa using h2
        rw [← hsk] at hkk
        have h1 : s.language_id = (sessionKey s).1 := rfl
        have h2 : ApiService.getWeekStart s.start_time = (sessionKey s).2 :=
          rfl
        rw [h1, h2, ← hkk]
        exact ⟨rfl, rfl⟩

/-- C10: the project_name and file_path of every group record come solely
from the first session of its partition in input order, with defaults
"Unknown" and "" when absent. -/
theorem grouping_project_fields_from_first (ss : List SessionData)
    (g : GroupRec) (hg : g ∈ groupSessionsByLanguage ss) :
    ∃ x t, membersOf ss (g.language_id, g.start_time) = x :: t ∧
      g.project_name = x.project_name.getD "Unknown" ∧
      g.file_path = x.file_path.getD "" := by
  obtain ⟨p, hp, hpe⟩ := List.mem_map.mp hg
  obtain ⟨k, g'⟩ := p
  simp only at hpe
  subst hpe
  have hspec := mem_groupFold_spec hp
  cases hm : membersOf ss k with
  | nil =>
      rw [hm] at hspec
      exact absurd hspec (by simp [groupOfMembers])
  | cons x xs =>
      rw [hm] at hspec
      simp only [groupOfMembers, Option.some.injEq] at hspec
      have hlang : g'.language_id = k.1 := by rw [← hspec]
      have hstart : g'.start_time = k.2 := by rw [← hspec]
      have hkk : (g'.language_id, g'.start_time) = k := by
        rw [hlang, hstart]
      refine ⟨x, xs, by rw [hkk, hm], ?_, ?_⟩
      · rw [← hspec]
      · rw [← hspec]

/-- Concrete sessions for the grouping witnesses: both land in the week of
Monday 1970-01-05 (timestamp 345600000 ms). -/
def wSess1 : SessionData :=
  { language_id := 1, start_time := 345601000, end_time := 345631000,
    duration := 30, project_name := none, file_path := none }

def wSess2 : SessionData :=
  { language_id := 1, start_time := 345605000, end_time := 345650000,
    duration := 45, project_name := some "beta", file_path := some "b.py" }

def wGroup12 : GroupRec :=
  { language_id := 1, start_time := 345600000, end_time := 345650000,
    duration := 75, project_name := "Unknown", file_path := "" }

/-- C4 witness: two same-language same-week sessions of durations 30 and
45 collapse to one record of duration 75 ending at the later end time. -/
theorem grouping_partitions_witness :
    wGroup12 ∈ groupSessionsByLanguage [wSess1, wSess2] ∧
    (membersOf [wSess1, wSess2] (wGroup12.language_id, wGroup12.start_time)
        ≠ [] ∧
    wGroup12.duration =
      ((membersOf [wSess1, wSess2]
        (wGroup12.language_id, wGroup12.start_time)).map (·.duration)).sum ∧
    (∀ s ∈ membersOf [wSess1, wSess2]
        (wGroup12.language_id, wGroup12.start_time),
      s.end_time ≤ wGroup12.end_time) ∧
    (∃ s ∈ membersOf [wSess1, wSess2]
        (wGroup12.language_id, wGroup12.start_time),
      wGroup12.end_time = s.end_time) ∧
    (∀ s ∈ membersOf [wSess1, wSess2]
        (wGroup12.language_id, wGroup12.start_time),
      s.language_id = wGroup12.language_id ∧
        ApiService.getWeekStart s.start_time = wGroup12.start_time) ∧
    (∀ s ∈ ([wSess1, wSess2] : List SessionData),
      ∃ g' ∈ groupSessionsByLanguage [wSess1, wSess2],
        g'.language_id = s.language_id ∧
          g'.start_time = ApiService.getWeekStart s.start_time)) :=
  ⟨by decide,
   grouping_partitions_sums_durations_max_end [wSess1, wSess2] wGroup12
     (by decide)⟩

def wSess3 : SessionData :=
  { language_id := 2, start_time := 345601000, end_time := 345631000,
    duration := 30, project_name := some "alpha", file_path := some "a.py" }

def wSess4 : SessionData :=
  { language_id := 2, start_time := 345605000, end_time := 345650000,
    duration := 45, project_name := some "beta", file_path := some "b.py" }

def wGroup34 : GroupRec :=
  { language_id := 2, start_time := 345600000, end_time := 345650000,
    duration := 75, project_name := "alpha", file_path := "a.py" }

/-- C10 witness: with two members carrying different project names, the
group record keeps the first member's project and path; the second
member's are discarded. -/
theorem grouping_project_fields_witness :
    wGroup34 ∈ groupSessionsByLanguage [wSess3, wSess4] ∧
    (∃ x t,
      membersOf [wSess3, wSess4]
          (wGroup34.language_id, wGroup34.start_time) = x :: t ∧
      wGroup34.project_name = x.project_name.getD "Unknown" ∧
      wGroup34.file_path = x.file_path.getD "") :=
  ⟨by decide,
   grouping_project_fields_from_first [wSess3, wSess4] wGroup34
     (by decide)⟩

end Slopboard
